import Mathlib

/-!
Verification of the STOCKNEWS pipeline (collect → deduplicate → score → rank →
translate → format) against its natural-language specification.

Python strings are embedded as lists of Unicode code points (`PyStr`), which
matches Python's `str` indexing/slicing semantics.  Python dictionaries built
from fixed key sets are embedded as structures; dictionary lookups with
defaults (`d.get(k, v)`) become total field accesses or explicit key-dispatch
functions.  External effects (HTTP fetches, the GLM language-model calls,
`json.loads`) are modelled as oracle parameters: an `Except` value for a call
that can raise, an `Option` value for a parse that can fail.  In-place
mutation of shared article dictionaries (the ranker's annotations) is
modelled by explicit state passing: the functions return the updated article
store alongside their result.
-/

/-- A Python string: the list of its code points. -/
abbrev PyStr := List Char

namespace PyStr

/-- Python `str.strip()` (no arguments): remove leading and trailing
whitespace. -/
def trim (s : PyStr) : PyStr :=
  ((s.dropWhile Char.isWhitespace).reverse.dropWhile Char.isWhitespace).reverse

/-- Python `str.lower()` (the inputs exercised by the program are ASCII, so
per-character lowering is faithful). -/
def lower (s : PyStr) : PyStr := s.map Char.toLower

/-- Python `s.split(sep)` for a one-character separator `sep`: splits on every
occurrence, keeping empty pieces (`"".split(c) == [""]`). -/
def splitOnChar (sep : Char) : PyStr → List PyStr
  | [] => [[]]
  | c :: cs =>
    let rest := splitOnChar sep cs
    if c = sep then [] :: rest
    else
      match rest with
      | [] => [[c]]
      | p :: ps => (c :: p) :: ps

/-- Python `s.split()` with no arguments: split on whitespace runs, dropping
empty pieces. -/
def words (s : PyStr) : List PyStr :=
  (List.splitOnP Char.isWhitespace s).filter (fun w => w ≠ [])

/-- Python `sep.join(pieces)`. -/
def joinSep (sep : PyStr) : List PyStr → PyStr
  | [] => []
  | [x] => x
  | x :: xs => x ++ sep ++ joinSep sep xs

/-- Python `pat in s` (substring containment). -/
def hasSub (pat s : PyStr) : Bool := decide (pat <:+: s)

/-- Python `str(n)` for a natural number. -/
def ofNat (n : Nat) : PyStr := (toString n).toList

/-- Value of a digit string. -/
def digitsVal (ds : PyStr) : Nat :=
  ds.foldl (fun acc c => 10 * acc + (c.toNat - '0'.toNat)) 0

/-- Python `int(s)`: strip whitespace, accept an optional sign followed by
decimal digits, raise `ValueError` (here: `none`) otherwise. -/
def toInt (s : PyStr) : Option Int :=
  let t := trim s
  match t with
  | '-' :: ds =>
    if ds ≠ [] ∧ ds.all Char.isDigit then some (-(digitsVal ds : Int)) else none
  | '+' :: ds =>
    if ds ≠ [] ∧ ds.all Char.isDigit then some (digitsVal ds : Int) else none
  | ds =>
    if ds ≠ [] ∧ ds.all Char.isDigit then some (digitsVal ds : Int) else none

/-- Python `s.replace(old, new)`: replace every (left-to-right,
non-overlapping) occurrence of `old` by `new`.  (Python leaves `s` unchanged
when `old` is longer than any match; replacing the empty string is never used
by the program, and is treated as no-op here.) -/
def replaceAll (s old new : PyStr) : PyStr :=
  if old = [] then s else go s.length s
where
  /-- Fuel-indexed scan (one unit of fuel per consumed character, so
  `s.length` suffices); structural recursion keeps the function
  kernel-computable. -/
  go : Nat → PyStr → PyStr
    | _, [] => []
    | 0, l => l
    | fuel + 1, c :: cs =>
      if old.isPrefixOf (c :: cs) then
        new ++ go fuel (cs.drop (old.length - 1))
      else
        c :: go fuel cs

/-- Python `s.replace(old, new, 1)`: replace only the first occurrence. -/
def replaceFirst (s old new : PyStr) : PyStr :=
  if old = [] then s else go s
where
  go : PyStr → PyStr
    | [] => []
    | c :: cs =>
      if old.isPrefixOf (c :: cs) then
        new ++ (cs.drop (old.length - 1))
      else
        c :: go cs

end PyStr

/-! ### Stable sorting, as performed by Python's `sorted`/`list.sort`

Python's sort is stable: elements with equal keys keep their original relative
order.  `sortDesc k` models `sorted(l, key=k, reverse=True)` and
`sortAsc k` models `sorted(l, key=k)` / `l.sort(key=k)`: each element is
inserted after every already-placed element whose key does not force it
earlier, which is exactly stable insertion. -/

/-- Insert `x` into `l` after every leading element whose key is `≥ k x`. -/
def insDesc (k : α → Int) (x : α) : List α → List α
  | [] => [x]
  | y :: ys => if k x ≤ k y then y :: insDesc k x ys else x :: y :: ys

/-- Stable sort, descending by key: Python `sorted(l, key=k, reverse=True)`. -/
def sortDesc (k : α → Int) (l : List α) : List α :=
  l.foldl (fun acc x => insDesc k x acc) []

/-- Stable sort, ascending by key: Python `sorted(l, key=k)`. -/
def sortAsc (k : α → Int) (l : List α) : List α :=
  sortDesc (fun a => -(k a)) l

/-! ### Data model and configuration (`config.py`)

An `Article` is the raw collected unit.  The program reads articles with
`article.get(key, default)`, so a dictionary missing a key behaves exactly
like one holding the default; the structure fields below therefore hold the
defaulted values directly.  Only the fields the verified claims touch are
modelled (`description`, `content`, timestamps etc. flow only into prompt
text sent to the external model). -/

structure Article where
  title : PyStr
  url : PyStr
  source : PyStr
deriving DecidableEq, Repr

/-- The JSON object returned by the model for one article, as decoded by
`json.loads`.  `impact_score` is an `Option` because the program reads it
with two different defaults (`.get('impact_score', 5)` in the combined-score
computation, `.get('impact_score', 0)` in the threshold check); `tickers`
is always read with default `[]`.  Fields the claims never touch
(`price_impact`, `category`, `reasoning`, `market_significance`) only flow
into summaries and prompts and are not modelled. -/
structure Analysis where
  tickers : List PyStr
  impact_score : Option Int
deriving DecidableEq, Repr

/-- `config.MIN_IMPACT_SCORE`. -/
def MIN_IMPACT_SCORE : Int := 5

/-- `config.LARGE_CAP_STOCKS` (verbatim, duplicates included). -/
def LARGE_CAP_STOCKS : List PyStr :=
  (["AAPL", "MSFT", "GOOGL", "GOOG", "AMZN", "META", "NVDA", "TSLA",
    "JPM", "V", "PG", "JNJ", "WMT", "UNH", "HD", "MA", "BAC", "XOM",
    "CVX", "LLY", "ABBV", "PFE", "KO", "PEP", "TMO", "AVGO", "COST",
    "CRM", "ACN", "NKE", "ADBE", "TXN", "NFLX", "CMCSA", "INTC",
    "AMD", "HD", "PYPL", "DIS", "VZ", "CSCO", "CRM"].map String.toList)

/-! ### Impact analyzer (`app/analysis/news_analyzer.py`) -/

/-- `NewsImpactAnalyzer._calculate_combined_score`:
base score (`impact_score`, default 5) plus `min(large_cap_count, 2)` when at
least one recognized large-cap ticker is present, plus 1 for a reliable
source (substring match on the lowercased source name), capped at 10. -/
def calculate_combined_score (analysis : Analysis) (article : Article) : Int :=
  let base_score := analysis.impact_score.getD 5
  let large_cap_count :=
    (analysis.tickers.countP (fun t => LARGE_CAP_STOCKS.contains t) : Int)
  let base_score :=
    if large_cap_count > 0 then base_score + min large_cap_count 2 else base_score
  let reliable_sources : List PyStr :=
    (["bloomberg", "reuters", "wsj", "cnbc", "yahoo finance"].map String.toList)
  let src := PyStr.lower article.source
  let base_score :=
    if reliable_sources.any (fun rel => PyStr.hasSub rel src) then base_score + 1
    else base_score
  min base_score 10

/-- The dictionary built by `_parse_analysis_response`: the original article,
the decoded model analysis, and the combined score.  The ranker later writes
the keys `glm_rank` / `glm_reasoning` into these same dictionaries, so they
appear here as optional fields that start out absent (`none`). -/
structure AnalyzedArticle where
  original_article : Article
  analysis : Analysis
  combined_score : Int
  glm_rank : Option Nat := none
  glm_reasoning : Option PyStr := none
deriving DecidableEq, Repr

instance : Inhabited AnalyzedArticle :=
  ⟨{ original_article := { title := [], url := [], source := [] },
     analysis := { tickers := [], impact_score := none },
     combined_score := 0 }⟩

/-- A value stored in an `AnalyzedArticle` dictionary, for modelling Python's
`dict.get` on it. -/
inductive DictVal where
  | art (a : Article)
  | ana (an : Analysis)
  | int (n : Int)
  | str (s : PyStr)
deriving DecidableEq, Repr

/-- Python `combined.get(key)` on the dictionary built by
`_parse_analysis_response`: only the keys actually present in that
dictionary can be found. -/
def AnalyzedArticle.getKey (c : AnalyzedArticle) (key : String) : Option DictVal :=
  if key = "original_article" then some (.art c.original_article)
  else if key = "analysis" then some (.ana c.analysis)
  else if key = "combined_score" then some (.int c.combined_score)
  else if key = "glm_rank" then c.glm_rank.map (fun r => .int (r : Int))
  else if key = "glm_reasoning" then c.glm_reasoning.map .str
  else none

/-- `NewsImpactAnalyzer._parse_analysis_response`.  The brace-span extraction
(`response.find('{')` … `response.rfind('}')`) composed with the external
`json.loads` is modelled by the oracle `parsed`: `none` when no JSON object
is found in the model response or decoding fails, `some a` when an object
decodes to `a`.  On success the function pairs the article with the analysis
and the combined score. -/
def parse_analysis_response (parsed : Option Analysis) (article : Article) :
    Option AnalyzedArticle :=
  parsed.map fun an =>
    { original_article := article
      analysis := an
      combined_score := calculate_combined_score an article }

/-- `NewsImpactAnalyzer.analyze_single_article`.  After parsing, the code
filters with `analysis.get('impact_score', 0) >= MIN_IMPACT_SCORE` where
`analysis` is the *combined* dictionary (keys `original_article`,
`analysis`, `combined_score`), so the lookup is `AnalyzedArticle.getKey` and
falls back to the default `0` (the score sits one level down, under
`analysis.analysis.impact_score`). -/
def analyze_single_article (parsed : Option Analysis) (article : Article) :
    Option AnalyzedArticle :=
  match parse_analysis_response parsed article with
  | none => none
  | some combined =>
    let score : Int :=
      match combined.getKey "impact_score" with
      | some (.int n) => n
      | _ => 0
    if score ≥ MIN_IMPACT_SCORE then some combined else none

/-- `NewsImpactAnalyzer.analyze_multiple_articles`: analyze each article with
its model response (the oracle pairs each article with the decoded JSON of
its response) and keep the successful analyses in order. -/
def analyze_multiple_articles (pairs : List (Article × Option Analysis)) :
    List AnalyzedArticle :=
  pairs.filterMap fun p => analyze_single_article p.2 p.1

/-! ### Global deduplication (`StockNewsPipeline._remove_global_duplicates`) -/

/-- The normalized title key: `article.get('title', '').lower().strip()`. -/
def normTitle (a : Article) : PyStr := PyStr.trim (PyStr.lower a.title)

/-- The normalized URL key: `article.get('url', '').lower().strip()`. -/
def normUrl (a : Article) : PyStr := PyStr.trim (PyStr.lower a.url)

/-- The loop of `_remove_global_duplicates`, with the two `seen` sets made
explicit (a Python `set` of strings is modelled as the list of strings added
so far; only membership is ever queried). -/
def removeDupsLoop : List Article → List PyStr → List PyStr → List Article
  | [], _, _ => []
  | a :: rest, seenTitles, seenUrls =>
    let title := normTitle a
    let url := normUrl a
    if title ∈ seenTitles ∨ url ∈ seenUrls ∨ title.length < 10 then
      removeDupsLoop rest seenTitles seenUrls
    else
      a :: removeDupsLoop rest (title :: seenTitles) (url :: seenUrls)

/-- `StockNewsPipeline._remove_global_duplicates`: keep the first occurrence
per normalized title and per normalized URL, dropping articles whose
normalized title is shorter than 10 characters. -/
def remove_global_duplicates (articles : List Article) : List Article :=
  removeDupsLoop articles [] []

/-! ### Collector aggregation (`app/collectors/base_collector.py`) -/

/-- One entry of `NewsCollectorManager.collection_stats`: the success entry
stores `{'status': 'success', 'count': n, 'articles': [...]}`, the failure
entry stores `{'status': 'error', 'error': msg, 'count': 0}`. -/
structure CollectorStat where
  status : PyStr
  count : Nat
  error : Option PyStr
  articles : Option (List Article)
deriving DecidableEq, Repr

/-- The stats entry recorded for one collector outcome. -/
def statOf (r : Except PyStr (List Article)) : CollectorStat :=
  match r with
  | .ok l => { status := "success".toList, count := l.length, error := none, articles := some l }
  | .error e => { status := "error".toList, count := 0, error := some e, articles := none }

/-- Python dictionary update `d[k] = v` on a string-keyed dictionary modelled
as an association list in insertion order. -/
def dictSet (m : List (PyStr × CollectorStat)) (k : PyStr) (v : CollectorStat) :
    List (PyStr × CollectorStat) :=
  if m.any (fun p => p.1 = k) then m.map (fun p => if p.1 = k then (k, v) else p)
  else m ++ [(k, v)]

/-- `NewsCollectorManager.collect_all_news`.  A registered collector is its
class name together with the outcome of its `collect_news()` call — a list of
articles, or the message of the exception it raised (the external fetch is
the oracle).  Each collector is invoked inside its own `try`: a raising
collector contributes no articles and an error stat, and the loop continues.
Returns the concatenated articles and the final `collection_stats`. -/
def collect_all_news (collectors : List (PyStr × Except PyStr (List Article))) :
    List Article × List (PyStr × CollectorStat) :=
  collectors.foldl
    (fun st c =>
      match c.2 with
      | .ok l => (st.1 ++ l, dictSet st.2 c.1 (statOf c.2))
      | .error _ => (st.1, dictSet st.2 c.1 (statOf c.2)))
    ([], [])

/-! ### Ranker (`app/analysis/news_ranker.py`)

`rank_articles` pre-sorts the analyzed articles by combined score, truncates
to 15 candidates, asks the model for an ordering, and parses lines of the
form `Rank N: Article [i] - ...`.  Parsing writes `glm_rank` /
`glm_reasoning` *into the shared article dictionaries*; this mutation is
modelled by threading the caller's article list (`store`) through the
computation: candidates are `(index, article)` pairs whose index is the
article's position in the caller's list, and every update is a `List.set` at
that position.  Both the updated store (the caller's view after the call) and
the returned ranking are produced. -/

/-- The attempt inside the line loop of `_parse_ranking_response`: split on
`]`, take the text after the first `[` of the part before the first `]` as
the article number, and assemble the reasoning text from the remaining
parts.  `none` models the `ValueError`/`IndexError` paths (caught and
skipped) and the `len(parts) >= 2` guard falling through. -/
def parseRankLine (line : PyStr) : Option (Int × PyStr) :=
  if ("Rank ".toList).isPrefixOf (PyStr.trim line) then
    let parts := PyStr.splitOnChar ']' line
    if parts.length ≥ 2 then
      let rank_part := parts.headD []
      match (PyStr.splitOnChar '[' rank_part)[1]? with
      | none => none
      | some article_index_str =>
        match PyStr.toInt article_index_str with
        | none => none
        | some n =>
          let reasoning₀ := PyStr.joinSep [' '] (parts.drop 1)
          let reasoning₁ := PyStr.replaceAll reasoning₀
            " - Most important because ".toList []
          let reasoning₂ := PyStr.replaceAll reasoning₁
            " - Second most important because ".toList []
          let reasoning₃ := PyStr.replaceAll reasoning₂
            " - Third most important because ".toList []
          let reasoning := PyStr.trim (PyStr.replaceFirst reasoning₃ " because ".toList [' '])
          some (n - 1, reasoning)
    else none
  else none

/-- Whether a response line leads to a `glm_rank` assignment: it parses and
its 0-based article index is within the candidate slice of size `nCands`. -/
def lineAssigns (nCands : Nat) (line : PyStr) : Bool :=
  match parseRankLine line with
  | some (k, _) => decide (0 ≤ k) && decide (k < (nCands : Int))
  | none => false

/-- `ranking_mapping[k] = v` (`dict` update keyed by candidate index). -/
def mapSet (m : List (Nat × Nat)) (k v : Nat) : List (Nat × Nat) :=
  if m.any (fun p => p.1 = k) then m.map (fun p => if p.1 = k then (k, v) else p)
  else m ++ [(k, v)]

/-- One iteration of the line loop of `_parse_ranking_response`.  State: the
caller's article store and `ranking_mapping`.  `candIdx` maps candidate
positions to store positions.  On a parsed, in-bounds line the candidate's
dictionary receives `glm_rank = len(ranking_mapping) + 1` and
`glm_reasoning = reasoning[:200]`, and `ranking_mapping` records the same
rank under the candidate index. -/
def processLine (candIdx : List Nat)
    (st : List AnalyzedArticle × List (Nat × Nat)) (line : PyStr) :
    List AnalyzedArticle × List (Nat × Nat) :=
  match parseRankLine line with
  | none => st
  | some (k, reasoning) =>
    if 0 ≤ k ∧ k < (candIdx.length : Int) then
      let origIdx := candIdx.getD k.toNat 0
      let old := st.1.getD origIdx default
      (st.1.set origIdx
        { old with glm_rank := some (st.2.length + 1),
                   glm_reasoning := some (reasoning.take 200) },
       mapSet st.2 k.toNat (st.2.length + 1))
    else st

/-- `NewsRanker._parse_ranking_response`: process every line of the response,
then split the (now annotated) candidates into the model-ranked group
(`'glm_rank' in article`) sorted ascending by `glm_rank` and the fallback
group sorted descending by `combined_score`, ranked group first.  Returns the
updated store together with the combined ordering. -/
def parse_ranking_response (response : PyStr) (cands : List (Nat × AnalyzedArticle))
    (store : List AnalyzedArticle) : List AnalyzedArticle × List AnalyzedArticle :=
  let lines := PyStr.splitOnChar '\n' response
  let stFinal := lines.foldl (processLine (cands.map (fun p => p.1))) (store, [])
  let store' := stFinal.1
  let candsPost := cands.map (fun p => (p.1, store'.getD p.1 default))
  let parts := candsPost.partition (fun p => p.2.glm_rank.isSome)
  let ranked := sortAsc (fun p => ((p.2.glm_rank.getD 0 : Nat) : Int)) parts.1
  let unranked := sortDesc (fun p => p.2.combined_score) parts.2
  (store', (ranked ++ unranked).map (fun p => p.2))

/-- The candidate slice of `rank_articles`: the caller's articles paired with
their positions, stable-sorted by combined score descending, truncated to the
top 15. -/
def candsOf (arts : List AnalyzedArticle) : List (Nat × AnalyzedArticle) :=
  (sortDesc (fun p => p.2.combined_score) arts.enum).take 15

/-- `NewsRanker.rank_articles` together with `_glm_rank_articles`.  The model
call is the oracle `response`: `none` when `call_glm` raises (the `except`
falls back to sorting the candidates by combined score), `some s` when it
returns text `s`.  The first component is the caller's article list after
the call (the ranker mutates the top candidates in place); the second is the
returned ranking, truncated to the top 10. -/
def rank_articles (arts : List AnalyzedArticle) (response : Option PyStr) :
    List AnalyzedArticle × List AnalyzedArticle :=
  if arts.isEmpty then (arts, [])
  else
    match response with
    | none =>
      (arts,
       ((sortDesc (fun p => p.2.combined_score) (candsOf arts)).map (fun p => p.2)).take 10)
    | some s =>
      let res := parse_ranking_response s (candsOf arts) arts
      (res.1, res.2.take 10)

/-! ### Thai translator (`app/translation/thai_translator.py`) -/

/-- The character set of `ThaiNewsTranslator._contains_thai`, verbatim. -/
def thaiChars : PyStr :=
  "กขฃคฅฆงจฉชซฌญฎฏฐฑฒณดตถทธนบปผฝพฟภมยรลวศษสหฬอฮฤฦะาำิีึืฺุูๆเแโใไๅๆ็่้๊๋๋๎๏".toList

/-- `ThaiNewsTranslator._contains_thai`. -/
def containsThai (text : PyStr) : Bool :=
  text.any (fun c => thaiChars.contains c)

/-- The rank marker `f'[{rank}.]'`. -/
def rankMarker (rank : Nat) : PyStr :=
  "[".toList ++ PyStr.ofNat rank ++ ".]".toList

/-- The line loop of `_extract_thai_format`: the first line that starts with
the rank marker, contains `|`, splits into at least 7 `|`-fields, and whose
third field is non-empty after stripping and contains Thai characters, is
returned (stripped).  Lines failing any of these checks are skipped. -/
def findValidLine (rank : Nat) : List PyStr → Option PyStr
  | [] => none
  | l :: ls =>
    let line := PyStr.trim l
    if (rankMarker rank).isPrefixOf line ∧ line.contains '|' then
      let parts := PyStr.splitOnChar '|' line
      if parts.length ≥ 7 then
        let thai_summary := if parts.length > 2 then PyStr.trim (parts.getD 2 []) else []
        if thai_summary ≠ [] ∧ containsThai thai_summary then some line
        else findValidLine rank ls
      else findValidLine rank ls
    else findValidLine rank ls

/-- The quoted-title extraction of `_fallback_format_extraction`: the span of
`response` from the first `"` through the next `"` (inclusive), or the empty
string when there is no such pair (`response.find('"', start + 1)` returns
`-1`, which fails the `end > start` test). -/
def extract_quoted (response : PyStr) : PyStr :=
  let after := response.dropWhile (fun c => c ≠ '"')
  match after with
  | [] => []
  | _ :: rest =>
    if rest.contains '"' then
      '"' :: (rest.takeWhile (fun c => c ≠ '"')) ++ ['"']
    else []

/-- `ThaiNewsTranslator._fallback_format_extraction`: reconstruct a line from
the quoted title and the whitespace-separated words of the response that
contain Thai characters (first 10, space-joined); when either is missing,
emit nothing. -/
def fallback_format_extraction (response : PyStr) (rank : Nat) : Option PyStr :=
  let title_match := extract_quoted response
  let thai_parts := (PyStr.words response).filter containsThai
  if title_match ≠ [] ∧ thai_parts ≠ [] then
    let thai_summary := PyStr.joinSep [' '] (thai_parts.take 10)
    some (rankMarker rank ++ " | ".toList ++ title_match ++ " | ".toList ++
          thai_summary ++ " | Various | News | Price impact | Score/10".toList)
  else none

/-- `ThaiNewsTranslator._extract_thai_format`: look for a validated line in
the (stripped) response; otherwise attempt the fallback reconstruction. -/
def extract_thai_format (response : PyStr) (expected_rank : Nat) : Option PyStr :=
  let lines := PyStr.splitOnChar '\n' (PyStr.trim response)
  match findValidLine expected_rank lines with
  | some line => some line
  | none => fallback_format_extraction response expected_rank

/-- `ThaiNewsTranslator.translate_ranked_news`: for each of the top 10 ranked
articles, build the prompt and call the model (the oracle `call`, indexed by
the article's position: `.error` models `call_glm` raising, which the
per-article `try` turns into a skipped article), then extract a validated or
reconstructed line; only truthy (non-`None`, non-empty) lines are kept. -/
def translate_ranked_news (call : Nat → Except PyStr PyStr)
    (ranked : List AnalyzedArticle) : List PyStr :=
  (ranked.take 10).enum.filterMap fun p =>
    match call p.1 with
    | .error _ => none
    | .ok resp =>
      match extract_thai_format resp (p.1 + 1) with
      | some line => if line ≠ [] then some line else none
      | none => none

/-- `ThaiNewsTranslator.format_final_message`: the fixed "no significant
news" message for an empty list, otherwise header, newline-joined lines and
footer. -/
def format_final_message (thai_news_list : List PyStr) : PyStr :=
  if thai_news_list.isEmpty then
    "📈 **ไม่พบข่าวสำคัญในช่วงเวลาที่กำหนด**\n\n*ระบบจะค้นหาข่าวใหม่ในรอบถัดไป*".toList
  else
    let header :=
      "📈 **ข่าวหุ้น US สำคัญล่าสุด**\n📊 **Top ".toList ++
      PyStr.ofNat thai_news_list.length ++
      " ข่าวที่มีผลกระทบสูงสุด**\n⏰ **อัพเดทล่าสุด**\n\n".toList
    let body := PyStr.joinSep "\n".toList thai_news_list
    let footer :=
      "\n\n---\n💡 *สรุปโดย AI วิเคราะห์จากแหล่งข่าวที่เชื่อถือได้*\n🕐 *อัพเดท 3 รอบ/วัน (9:00, 13:00, 17:00)*\n📊 *Impact Score 1-10 (10 = ผลกระทบสูงสุด)*".toList
    header ++ body ++ footer

/-! ### Pipeline orchestrator (`app/pipeline/stock_news_pipeline.py`) -/

/-- The result dictionary of one `run_complete_pipeline` call.  The
wall-clock fields (`processing_time`, `timestamp`) and the nested
`pipeline_stats` summaries are outside the model; the success flag, error
text, the four stage counts and the final message — the fields the
specification constrains — are modelled. -/
structure PipelineResult where
  success : Bool
  error : PyStr
  raw_collected : Nat
  analyzed_count : Nat
  final_ranked : Nat
  thai_translated : Nat
  final_message : PyStr
deriving DecidableEq, Repr

/-- `StockNewsPipeline._empty_results`: the defined-shape failure result
(`success=False`, the reason as `error`, all counts 0, and a fixed
retry-notice message around the reason). -/
def empty_results (reason : PyStr) : PipelineResult :=
  { success := false
    error := reason
    raw_collected := 0
    analyzed_count := 0
    final_ranked := 0
    thai_translated := 0
    final_message := "❌ ".toList ++ reason ++ "\n\n*ระบบจะลองใหม่ในรอบถัดไป*".toList }

/-- `StockNewsPipeline._collect_news`: collect from every registered
collector, then remove global duplicates.  (The surrounding `try` can only
be reached by failures of the aggregation itself, which is total here; each
collector's failure is already isolated inside `collect_all_news`.) -/
def collect_news (collectors : List (PyStr × Except PyStr (List Article))) :
    List Article :=
  remove_global_duplicates (collect_all_news collectors).1

/-- `StockNewsPipeline.run_complete_pipeline`.  External behaviour is given
by oracles: the registered collectors' outcomes, the per-article analysis
outcome `glm` (model call plus JSON decode), the ranking response
(`none` = the ranking model call raised) and the per-article translation
responses.  Collection yielding no articles, or analysis retaining none,
short-circuits to the defined failure result; the `except` wrapper around
the whole body corresponds to the totality of this function — every failure
is returned as a value, never propagated. -/
def run_complete_pipeline (collectors : List (PyStr × Except PyStr (List Article)))
    (glm : Article → Option Analysis) (rankResponse : Option PyStr)
    (transCall : Nat → Except PyStr PyStr) : PipelineResult :=
  let raw_articles := collect_news collectors
  if raw_articles.isEmpty then empty_results "No news articles found".toList
  else
    let articles_to_analyze := raw_articles.take 50
    let analyzed_articles :=
      analyze_multiple_articles (articles_to_analyze.map (fun a => (a, glm a)))
    if analyzed_articles.isEmpty then empty_results "No high-impact news found".toList
    else
      let ranked_articles := (rank_articles analyzed_articles rankResponse).2
      let thai_news := translate_ranked_news transCall ranked_articles
      let final_message := format_final_message thai_news
      { success := true
        error := []
        raw_collected := raw_articles.length
        analyzed_count := analyzed_articles.length
        final_ranked := ranked_articles.length
        thai_translated := thai_news.length
        final_message := final_message }

/-! ### Concrete scenario inputs named by the specification -/

/-- The analyzer scenario: 6 articles whose model responses decode to
impact scores [9, 4, 7, 5, 8, 3] (no tickers), with the configured minimum
impact score 5. -/
def c3_scenario : List (Article × Option Analysis) :=
  [("Fed cuts rates by 50 basis points", 9),
   ("Small-cap firm updates guidance", 4),
   ("Apple unveils new AI partnership", 7),
   ("Retail sales rise modestly in March", 5),
   ("Microsoft announces major acquisition", 8),
   ("Minor analyst note on utilities", 3)].map
    (fun p => ({ title := p.1.toList, url := p.1.toList, source := "reuters".toList },
               some { tickers := [], impact_score := some p.2 }))

/-- Shorthand for a concrete article. -/
def mkArticle (t u : String) : Article :=
  { title := t.toList, url := u.toList, source := "x".toList }

/-- Shorthand for a concrete analyzed article with a given combined score. -/
def mkAnalyzed (score : Int) (t : String) : AnalyzedArticle :=
  { original_article := mkArticle t t
    analysis := { tickers := [], impact_score := some score }
    combined_score := score }

/-- Input for the deduplication witness: a duplicate title (different URL),
a too-short title, a duplicate URL (different title), and two keepers. -/
def c6_input : List Article :=
  [mkArticle "Apple shares rally today" "u1",
   mkArticle "Apple Shares Rally Today" "u2",
   mkArticle "short" "u3",
   mkArticle "Tesla deliveries beat forecasts" "u1",
   mkArticle "Nvidia earnings top estimates" "u4"]

/-- Expected deduplication output for `c6_input`. -/
def c6_expected : List Article :=
  [mkArticle "Apple shares rally today" "u1",
   mkArticle "Nvidia earnings top estimates" "u4"]

/-- The aggregation scenario: three collectors returning 5 articles, an
exception and 3 articles respectively, where two of the third collector's
titles duplicate the first collector's. -/
def c8_collectors : List (PyStr × Except PyStr (List Article)) :=
  [("NewsAPICollector".toList, Except.ok
     [mkArticle "Fed signals rate cut ahead" "n1",
      mkArticle "Apple beats earnings estimates" "n2",
      mkArticle "Oil prices tumble on supply" "n3",
      mkArticle "Tesla expands factory output" "n4",
      mkArticle "Banks tighten lending rules" "n5"]),
   ("RSSCollector".toList, Except.error "connection timed out".toList),
   ("AlphaVantageCollector".toList, Except.ok
     [mkArticle "Apple beats earnings estimates" "a1",
      mkArticle "Banks tighten lending rules" "a2",
      mkArticle "Chip demand lifts foundries" "a3"])]

/-- A well-formed model response for the translator witness: the expected
rank marker, seven pipe-delimited fields, Thai text in the summary field. -/
def c9w_response : PyStr :=
  "[1.] | \"Apple beats estimates\" | สรุปข่าวหุ้น | AAPL | CNBC | Positive | 9/10".toList

/-- The translator counterexample response: no validated line, a quoted
title containing the field delimiter, and one Thai word. -/
def c9_response : PyStr := "\"a|b\" กข".toList

/-- The line the fallback reconstruction emits for `c9_response`. -/
def c9_line : PyStr :=
  "[1.] | \"a|b\" | กข | Various | News | Price impact | Score/10".toList

/-- The ordering contract of the ranker's output: a model-ranked article
(`glm_rank` present) never follows a fallback article, model-ranked articles
are ordered by their assigned rank, and fallback articles are ordered by
combined score descending. -/
def rankedBefore (a b : AnalyzedArticle) : Prop :=
  match a.glm_rank, b.glm_rank with
  | some r1, some r2 => r1 ≤ r2
  | some _, none => True
  | none, some _ => False
  | none, none => b.combined_score ≤ a.combined_score

/-- Two fresh analyzed articles for the ranking witness. -/
def c4_arts : List AnalyzedArticle :=
  [mkAnalyzed 5 "Retail sales rise", mkAnalyzed 7 "Fed cuts rates"]

/-- A model response ranking candidate 2 first. -/
def c4_response : PyStr :=
  "Rank 1: Article [2] - Most important because macro news".toList

/-- Four fresh analyzed articles for the fallback-ordering witness. -/
def c5_arts : List AnalyzedArticle :=
  [mkAnalyzed 3 "Minor update", mkAnalyzed 9 "Major merger",
   mkAnalyzed 5 "Earnings beat", mkAnalyzed 7 "AI partnership"]

/-- Two fresh analyzed articles for the mutation witness. -/
def c10_arts : List AnalyzedArticle :=
  [mkAnalyzed 6 "Chip demand rises", mkAnalyzed 8 "Bank merger talks"]

/-- A model response whose first line parses and is in bounds. -/
def c10_response : PyStr :=
  "Rank 1: Article [1] - Most important because sector-wide".toList

/-! ### General lemmas about the embedded operations -/

theorem mem_insDesc {k : α → Int} {x a : α} {l : List α} :
    a ∈ insDesc k x l ↔ a = x ∨ a ∈ l := by
  induction l with
  | nil => simp [insDesc]
  | cons y ys ih =>
    by_cases h : k x ≤ k y
    · simp only [insDesc, if_pos h, List.mem_cons, ih]
      tauto
    · simp only [insDesc, if_neg h, List.mem_cons]

theorem length_insDesc (k : α → Int) (x : α) (l : List α) :
    (insDesc k x l).length = l.length + 1 := by
  induction l with
  | nil => rfl
  | cons y ys ih => by_cases h : k x ≤ k y <;> simp [insDesc, h, ih]

theorem mem_sortDesc {k : α → Int} {a : α} {l : List α} :
    a ∈ sortDesc k l ↔ a ∈ l := by
  suffices h : ∀ (l acc : List α), a ∈ l.foldl (fun acc x => insDesc k x acc) acc ↔
      a ∈ acc ∨ a ∈ l by
    simpa using h l []
  intro l
  induction l with
  | nil => simp
  | cons y ys ih =>
    intro acc
    simp only [List.foldl_cons, ih, mem_insDesc, List.mem_cons]
    tauto

theorem length_sortDesc (k : α → Int) (l : List α) :
    (sortDesc k l).length = l.length := by
  suffices h : ∀ (l acc : List α),
      (l.foldl (fun acc x => insDesc k x acc) acc).length = acc.length + l.length by
    simpa using h l []
  intro l
  induction l with
  | nil => simp
  | cons y ys ih =>
    intro acc
    simp only [List.foldl_cons, ih, length_insDesc, List.length_cons]
    omega

theorem pairwise_insDesc {k : α → Int} {x : α} {l : List α}
    (h : l.Pairwise (fun a b => k b ≤ k a)) :
    (insDesc k x l).Pairwise (fun a b => k b ≤ k a) := by
  induction l with
  | nil => simp [insDesc]
  | cons y ys ih =>
    rcases List.pairwise_cons.mp h with ⟨hy, hys⟩
    by_cases hc : k x ≤ k y
    · simp only [insDesc, if_pos hc]
      refine List.pairwise_cons.mpr ⟨?_, ih hys⟩
      intro b hb
      rcases mem_insDesc.mp hb with rfl | hb
      · exact hc
      · exact hy b hb
    · simp only [insDesc, if_neg hc]
      refine List.pairwise_cons.mpr ⟨?_, h⟩
      intro b hb
      rcases List.mem_cons.mp hb with rfl | hb
      · omega
      · have := hy b hb; omega

theorem pairwise_sortDesc (k : α → Int) (l : List α) :
    (sortDesc k l).Pairwise (fun a b => k b ≤ k a) := by
  suffices h : ∀ (l acc : List α), acc.Pairwise (fun a b => k b ≤ k a) →
      (l.foldl (fun acc x => insDesc k x acc) acc).Pairwise (fun a b => k b ≤ k a) by
    exact h l [] List.Pairwise.nil
  intro l
  induction l with
  | nil => exact fun acc h => h
  | cons y ys ih => exact fun acc h => ih _ (pairwise_insDesc h)

theorem mem_sortAsc {k : α → Int} {a : α} {l : List α} :
    a ∈ sortAsc k l ↔ a ∈ l := mem_sortDesc

theorem length_sortAsc (k : α → Int) (l : List α) :
    (sortAsc k l).length = l.length := length_sortDesc _ l

theorem pairwise_sortAsc (k : α → Int) (l : List α) :
    (sortAsc k l).Pairwise (fun a b => k a ≤ k b) := by
  have h := pairwise_sortDesc (fun a => -(k a)) l
  exact h.imp (by omega)

theorem dropWhile_subset {p : α → Bool} {l : List α} {a : α}
    (h : a ∈ l.dropWhile p) : a ∈ l :=
  (List.dropWhile_sublist p).mem h

theorem mem_of_mem_trim {s : PyStr} {c : Char} (h : c ∈ PyStr.trim s) : c ∈ s := by
  unfold PyStr.trim at h
  rw [List.mem_reverse] at h
  have h1 := dropWhile_subset h
  rw [List.mem_reverse] at h1
  exact dropWhile_subset h1

/-! ### C2: composite score bounds -/

/-- C2 as stated is false on the code: nothing clamps the model-assigned
`impact_score`, so an analysis that decodes with `impact_score = 11` (which
meets the minimum threshold 5 and is therefore retained) gets the composite
score `min(11, 10) = 10`, strictly below its raw impact score. -/
theorem C2_counterexample :
    MIN_IMPACT_SCORE ≤ (11 : Int) ∧
    calculate_combined_score { tickers := [], impact_score := some 11 }
      { title := [], url := [], source := "newswire".toList } = 10 ∧
    ¬((11 : Int) ≤ calculate_combined_score { tickers := [], impact_score := some 11 }
      { title := [], url := [], source := "newswire".toList }) := by
  refine ⟨by decide, by decide, by decide⟩

/-- C2 (amended): for every analysis whose model-assigned impact score `s`
meets the configured minimum threshold *and is at most 10* (the documented
range of the score), the composite score of `_calculate_combined_score`
satisfies `1 ≤ composite ≤ 10` and `composite ≥ s`. -/
theorem C2_composite_score_bounds (analysis : Analysis) (article : Article) (s : Int)
    (hs : analysis.impact_score = some s)
    (hmin : MIN_IMPACT_SCORE ≤ s) (hmax : s ≤ 10) :
    1 ≤ calculate_combined_score analysis article ∧
    calculate_combined_score analysis article ≤ 10 ∧
    s ≤ calculate_combined_score analysis article := by
  have hm : (5 : Int) ≤ s := by simpa [MIN_IMPACT_SCORE] using hmin
  have hcount : (0 : Int) ≤
      ((analysis.tickers.countP fun t => LARGE_CAP_STOCKS.contains t : Nat) : Int) := by
    exact_mod_cast Nat.zero_le _
  unfold calculate_combined_score
  rw [hs]
  simp only [Option.getD_some]
  split_ifs <;> omega

/-- Witness for C2: a concrete retained analysis (score 7, one large-cap
ticker, reliable source) whose composite score obeys the amended bounds. -/
theorem C2_composite_score_bounds_witness :
    1 ≤ calculate_combined_score { tickers := ["AAPL".toList], impact_score := some 7 }
      { title := "t".toList, url := "u".toList, source := "cnbc.com".toList } ∧
    calculate_combined_score { tickers := ["AAPL".toList], impact_score := some 7 }
      { title := "t".toList, url := "u".toList, source := "cnbc.com".toList } ≤ 10 ∧
    (7 : Int) ≤ calculate_combined_score { tickers := ["AAPL".toList], impact_score := some 7 }
      { title := "t".toList, url := "u".toList, source := "cnbc.com".toList } :=
  C2_composite_score_bounds _ _ 7 rfl (by decide) (by decide)

/-! ### C3: threshold filtering in the analyzer -/

/-- C3 names a correct intent, but the code cannot realize it: the retention
check `analysis.get('impact_score', 0) >= MIN_IMPACT_SCORE` reads the key
`impact_score` from the *combined* dictionary, which stores the score only
one level down (under `analysis`), so the default 0 is compared against 5
and every article — whatever its model score — is dropped.  In particular
the specification's 6-article scenario with scores [9, 4, 7, 5, 8, 3]
produces 0 analyzed articles, not the 4 with scores ≥ 5. -/
theorem C3_analyzer_drops_everything :
    (∀ pairs : List (Article × Option Analysis), analyze_multiple_articles pairs = []) ∧
    analyze_multiple_articles c3_scenario = [] := by
  have hsingle : ∀ (p : Option Analysis) (a : Article), analyze_single_article p a = none := by
    intro p a
    cases p <;> rfl
  constructor
  · intro pairs
    simp [analyze_multiple_articles, hsingle]
  · simp [analyze_multiple_articles, hsingle]

/-! ### C6/C7: global deduplication -/

theorem removeDupsLoop_sublist :
    ∀ (l : List Article) (sT sU : List PyStr), (removeDupsLoop l sT sU).Sublist l := by
  intro l
  induction l with
  | nil => intro sT sU; simp [removeDupsLoop]
  | cons a rest ih =>
    intro sT sU
    by_cases h : normTitle a ∈ sT ∨ normUrl a ∈ sU ∨ (normTitle a).length < 10
    · simp only [removeDupsLoop, if_pos h]
      exact (ih sT sU).cons a
    · simp only [removeDupsLoop, if_neg h]
      exact (ih _ _).cons₂ a

theorem mem_removeDupsLoop :
    ∀ {l : List Article} {sT sU : List PyStr} {a : Article},
      a ∈ removeDupsLoop l sT sU →
      10 ≤ (normTitle a).length ∧ normTitle a ∉ sT ∧ normUrl a ∉ sU := by
  intro l
  induction l with
  | nil => intro sT sU a h; simp [removeDupsLoop] at h
  | cons x rest ih =>
    intro sT sU a h
    by_cases hx : normTitle x ∈ sT ∨ normUrl x ∈ sU ∨ (normTitle x).length < 10
    · rw [removeDupsLoop, if_pos hx] at h
      exact ih h
    · rw [removeDupsLoop, if_neg hx] at h
      push_neg at hx
      rcases List.mem_cons.mp h with rfl | h
      · exact ⟨by omega, hx.1, hx.2.1⟩
      · have := ih h
        refine ⟨this.1, ?_, ?_⟩
        · have := this.2.1
          simp only [List.mem_cons] at this
          tauto
        · have := this.2.2
          simp only [List.mem_cons] at this
          tauto

theorem pairwise_removeDupsLoop :
    ∀ (l : List Article) (sT sU : List PyStr),
      (removeDupsLoop l sT sU).Pairwise
        (fun a b => normTitle a ≠ normTitle b ∧ normUrl a ≠ normUrl b) := by
  intro l
  induction l with
  | nil => intro sT sU; simp [removeDupsLoop]
  | cons x rest ih =>
    intro sT sU
    by_cases hx : normTitle x ∈ sT ∨ normUrl x ∈ sU ∨ (normTitle x).length < 10
    · rw [removeDupsLoop, if_pos hx]
      exact ih sT sU
    · rw [removeDupsLoop, if_neg hx]
      refine List.pairwise_cons.mpr ⟨?_, ih _ _⟩
      intro b hb
      have hmem := mem_removeDupsLoop hb
      have ht := hmem.2.1
      have hu := hmem.2.2
      simp only [List.mem_cons] at ht hu
      constructor
      · intro hEq; exact ht (Or.inl hEq.symm)
      · intro hEq; exact hu (Or.inl hEq.symm)

theorem removeDupsLoop_coverage :
    ∀ (l : List Article) (sT sU : List PyStr) (a : Article),
      a ∈ l → 10 ≤ (normTitle a).length →
      normTitle a ∉ sT → normUrl a ∉ sU →
      ∃ b ∈ removeDupsLoop l sT sU,
        normTitle b = normTitle a ∨ normUrl b = normUrl a := by
  intro l
  induction l with
  | nil => intro sT sU a h; simp at h
  | cons x rest ih =>
    intro sT sU a hmem hlen hT hU
    by_cases hx : normTitle x ∈ sT ∨ normUrl x ∈ sU ∨ (normTitle x).length < 10
    · rw [removeDupsLoop, if_pos hx]
      rcases List.mem_cons.mp hmem with rfl | hmem
      · exact absurd hx (by push_neg; exact ⟨hT, hU, by omega⟩)
      · exact ih sT sU a hmem hlen hT hU
    · rw [removeDupsLoop, if_neg hx]
      rcases List.mem_cons.mp hmem with rfl | hmem
      · exact ⟨a, List.mem_cons_self _ _, Or.inl rfl⟩
      · by_cases hEqT : normTitle a = normTitle x
        · exact ⟨x, List.mem_cons_self _ _, Or.inl hEqT.symm⟩
        · by_cases hEqU : normUrl a = normUrl x
          · exact ⟨x, List.mem_cons_self _ _, Or.inr hEqU.symm⟩
          · have hT' : normTitle a ∉ normTitle x :: sT := by
              simp only [List.mem_cons]
              tauto
            have hU' : normUrl a ∉ normUrl x :: sU := by
              simp only [List.mem_cons]
              tauto
            obtain ⟨b, hb, hkey⟩ := ih _ _ a hmem hlen hT' hU'
            exact ⟨b, List.mem_cons_of_mem _ hb, hkey⟩

/-- C6: global deduplication keeps a subsequence of its input (hence
preserves relative order), every kept article has a normalized title of at
least 10 characters, no two kept articles share a normalized title or a
normalized URL, and every input article with a long-enough title is
represented in the output by a kept article sharing its title or URL key —
i.e. exactly the first occurrence per key survives. -/
theorem C6_dedup_first_occurrence (articles : List Article) :
    (remove_global_duplicates articles).Sublist articles ∧
    (∀ a ∈ remove_global_duplicates articles, 10 ≤ (normTitle a).length) ∧
    (remove_global_duplicates articles).Pairwise
      (fun a b => normTitle a ≠ normTitle b ∧ normUrl a ≠ normUrl b) ∧
    (∀ a ∈ articles, 10 ≤ (normTitle a).length →
      ∃ b ∈ remove_global_duplicates articles,
        normTitle b = normTitle a ∨ normUrl b = normUrl a) := by
  refine ⟨removeDupsLoop_sublist articles [] [],
          fun a ha => (mem_removeDupsLoop ha).1,
          pairwise_removeDupsLoop articles [] [],
          fun a ha hlen => removeDupsLoop_coverage articles [] [] a ha hlen
            (List.not_mem_nil _) (List.not_mem_nil _)⟩

theorem removeDupsLoop_fixed :
    ∀ (l : List Article) (sT sU : List PyStr),
      (∀ a ∈ l, 10 ≤ (normTitle a).length ∧ normTitle a ∉ sT ∧ normUrl a ∉ sU) →
      l.Pairwise (fun a b => normTitle a ≠ normTitle b ∧ normUrl a ≠ normUrl b) →
      removeDupsLoop l sT sU = l := by
  intro l
  induction l with
  | nil => intro sT sU _ _; rfl
  | cons x rest ih =>
    intro sT sU hall hpw
    obtain ⟨hlen, hT, hU⟩ := hall x (List.mem_cons_self _ _)
    have hx : ¬(normTitle x ∈ sT ∨ normUrl x ∈ sU ∨ (normTitle x).length < 10) := by
      push_neg
      exact ⟨hT, hU, by omega⟩
    rw [removeDupsLoop, if_neg hx]
    rcases List.pairwise_cons.mp hpw with ⟨hhead, htail⟩
    congr 1
    apply ih _ _ _ htail
    intro a ha
    obtain ⟨hlen', hT', hU'⟩ := hall a (List.mem_cons_of_mem _ ha)
    obtain ⟨hneT, hneU⟩ := hhead a ha
    refine ⟨hlen', ?_, ?_⟩
    · simp only [List.mem_cons]
      push_neg
      exact ⟨fun h => hneT h.symm, hT'⟩
    · simp only [List.mem_cons]
      push_neg
      exact ⟨fun h => hneU h.symm, hU'⟩

/-- C7: the global deduplication step is idempotent — applied to its own
output it removes nothing and preserves the order. -/
theorem C7_dedup_idempotent (articles : List Article) :
    remove_global_duplicates (remove_global_duplicates articles) =
      remove_global_duplicates articles := by
  unfold remove_global_duplicates
  apply removeDupsLoop_fixed
  · intro a ha
    exact ⟨(mem_removeDupsLoop ha).1, List.not_mem_nil _, List.not_mem_nil _⟩
  · exact pairwise_removeDupsLoop articles [] []

/-- Witness for C6: the four properties instantiated at a concrete input
holding a duplicated title, a too-short title and a duplicated URL, together
with the evaluated output. -/
theorem C6_dedup_first_occurrence_witness :
    (remove_global_duplicates c6_input).Sublist c6_input ∧
    (∀ a ∈ remove_global_duplicates c6_input, 10 ≤ (normTitle a).length) ∧
    (remove_global_duplicates c6_input).Pairwise
      (fun a b => normTitle a ≠ normTitle b ∧ normUrl a ≠ normUrl b) ∧
    (∀ a ∈ c6_input, 10 ≤ (normTitle a).length →
      ∃ b ∈ remove_global_duplicates c6_input,
        normTitle b = normTitle a ∨ normUrl b = normUrl a) ∧
    remove_global_duplicates c6_input = c6_expected := by
  obtain ⟨h1, h2, h3, h4⟩ := C6_dedup_first_occurrence c6_input
  exact ⟨h1, h2, h3, h4, by decide⟩

/-! ### C8: collector aggregation and fault isolation -/

theorem dictSet_append {m : List (PyStr × CollectorStat)} {k : PyStr} {v : CollectorStat}
    (h : m.all (fun p => p.1 ≠ k)) : dictSet m k v = m ++ [(k, v)] := by
  unfold dictSet
  rw [if_neg]
  simp only [List.all_eq_true, decide_eq_true_eq] at h
  simp only [List.any_eq_true, decide_eq_true_eq, not_exists, not_and]
  exact fun p hp => h p hp

theorem collect_all_news_fold :
    ∀ (cs : List (PyStr × Except PyStr (List Article)))
      (artsAcc : List Article) (statsAcc : List (PyStr × CollectorStat)),
      (∀ c ∈ cs, statsAcc.all (fun p => p.1 ≠ c.1)) →
      cs.Pairwise (fun a b => a.1 ≠ b.1) →
      cs.foldl
        (fun st c =>
          match c.2 with
          | .ok l => (st.1 ++ l, dictSet st.2 c.1 (statOf c.2))
          | .error _ => (st.1, dictSet st.2 c.1 (statOf c.2)))
        (artsAcc, statsAcc) =
      (artsAcc ++ (cs.map (fun c => match c.2 with | .ok l => l | .error _ => [])).flatten,
       statsAcc ++ cs.map (fun c => (c.1, statOf c.2))) := by
  intro cs
  induction cs with
  | nil => intro artsAcc statsAcc _ _; simp
  | cons c rest ih =>
    intro artsAcc statsAcc hfresh hpw
    rcases List.pairwise_cons.mp hpw with ⟨hhead, htail⟩
    have hset : dictSet statsAcc c.1 (statOf c.2) = statsAcc ++ [(c.1, statOf c.2)] :=
      dictSet_append (hfresh c (List.mem_cons_self _ _))
    have hfresh' : ∀ c' ∈ rest,
        (statsAcc ++ [(c.1, statOf c.2)]).all (fun p => p.1 ≠ c'.1) := by
      intro c' hc'
      have h1 := hfresh c' (List.mem_cons_of_mem _ hc')
      have h2 := hhead c' hc'
      simp only [List.all_eq_true, decide_eq_true_eq] at h1 ⊢
      intro p hp
      rcases List.mem_append.mp hp with hp | hp
      · exact h1 p hp
      · rcases List.mem_singleton.mp hp with rfl
        exact h2
    cases hc : c.2 with
    | ok l =>
      rw [hc] at hset hfresh'
      simp only [List.foldl_cons, hc]
      rw [hset]
      rw [ih (artsAcc ++ l) _ hfresh' htail]
      simp [hc, List.append_assoc]
    | error e =>
      rw [hc] at hset hfresh'
      simp only [List.foldl_cons, hc]
      rw [hset]
      rw [ih artsAcc _ hfresh' htail]
      simp [hc, List.append_assoc]

/-- C8: `collect_all_news` invokes every registered collector even when some
raise: the returned articles are the concatenation, in registration order, of
the successful collectors' articles (an erroring collector contributes the
empty list), and — provided collector names are distinct, as they are for the
three registered collector classes — the stats record, for every collector in
order, a `success` entry with its article count or an `error` entry with the
exception message. -/
theorem C8_collector_fault_isolation
    (collectors : List (PyStr × Except PyStr (List Article)))
    (hnames : collectors.Pairwise (fun a b => a.1 ≠ b.1)) :
    (collect_all_news collectors).1 =
      (collectors.map (fun c => match c.2 with | .ok l => l | .error _ => [])).flatten ∧
    (collect_all_news collectors).2 = collectors.map (fun c => (c.1, statOf c.2)) := by
  unfold collect_all_news
  rw [collect_all_news_fold collectors [] [] (by intro c _; simp) hnames]
  simp

/-- Witness for C8: the specification's scenario — collectors returning
[5 articles, an exception, 3 articles] with two cross-source duplicate
titles — evaluated: the second collector is recorded as `error` with its
message, the other articles all arrive, and global deduplication leaves
5 + 3 - 2 = 6 unique articles. -/
theorem C8_collector_fault_isolation_witness :
    c8_collectors.Pairwise (fun a b => a.1 ≠ b.1) ∧
    (collect_all_news c8_collectors).1 =
      (c8_collectors.map (fun c => match c.2 with | .ok l => l | .error _ => [])).flatten ∧
    (collect_all_news c8_collectors).2 = c8_collectors.map (fun c => (c.1, statOf c.2)) ∧
    statOf (Except.error "connection timed out".toList : Except PyStr (List Article)) =
      { status := "error".toList, count := 0,
        error := some "connection timed out".toList, articles := none } ∧
    (collect_all_news c8_collectors).1.length = 8 ∧
    (remove_global_duplicates (collect_all_news c8_collectors).1).length = 6 := by
  have h := C8_collector_fault_isolation c8_collectors (by decide)
  exact ⟨by decide, h.1, h.2, by decide, by decide, by decide⟩

/-! ### C1: orchestrator failure shape -/

/-- C1: `run_complete_pipeline` is total on its modelled effects (every
failure is returned as a value, never propagated), and whenever the returned
result has `success = false` — in particular when no articles are collected
or none survive analysis — it carries a non-empty error string, all four
stage counts equal to 0, and a non-empty final message. -/
theorem C1_pipeline_failure_shape
    (collectors : List (PyStr × Except PyStr (List Article)))
    (glm : Article → Option Analysis) (rankResponse : Option PyStr)
    (transCall : Nat → Except PyStr PyStr)
    (hfail : (run_complete_pipeline collectors glm rankResponse transCall).success = false) :
    (run_complete_pipeline collectors glm rankResponse transCall).error ≠ [] ∧
    (run_complete_pipeline collectors glm rankResponse transCall).raw_collected = 0 ∧
    (run_complete_pipeline collectors glm rankResponse transCall).analyzed_count = 0 ∧
    (run_complete_pipeline collectors glm rankResponse transCall).final_ranked = 0 ∧
    (run_complete_pipeline collectors glm rankResponse transCall).thai_translated = 0 ∧
    (run_complete_pipeline collectors glm rankResponse transCall).final_message ≠ [] := by
  by_cases h1 : (collect_news collectors).isEmpty = true
  · simp only [run_complete_pipeline, h1, if_true]
    exact ⟨by decide, rfl, rfl, rfl, rfl, by decide⟩
  · by_cases h2 : (analyze_multiple_articles
        (((collect_news collectors).take 50).map (fun a => (a, glm a)))).isEmpty = true
    · simp only [run_complete_pipeline, h1, h2, if_true, Bool.false_eq_true, if_false]
      exact ⟨by decide, rfl, rfl, rfl, rfl, by decide⟩
    · exfalso
      simp only [run_complete_pipeline, h1, h2, Bool.false_eq_true, if_false] at hfail
      exact absurd hfail (by simp)

/-- Witness for C1: with no registered collectors the run fails with the
defined shape ("No news articles found", all counts 0, non-empty message). -/
theorem C1_pipeline_failure_shape_witness :
    (run_complete_pipeline [] (fun _ => none) none (fun _ => Except.error [])).success = false ∧
    (run_complete_pipeline [] (fun _ => none) none (fun _ => Except.error [])).error ≠ [] ∧
    (run_complete_pipeline [] (fun _ => none) none (fun _ => Except.error [])).raw_collected = 0 ∧
    (run_complete_pipeline [] (fun _ => none) none (fun _ => Except.error [])).analyzed_count = 0 ∧
    (run_complete_pipeline [] (fun _ => none) none (fun _ => Except.error [])).final_ranked = 0 ∧
    (run_complete_pipeline [] (fun _ => none) none (fun _ => Except.error [])).thai_translated = 0 ∧
    (run_complete_pipeline [] (fun _ => none) none (fun _ => Except.error [])).final_message ≠ [] := by
  have h := C1_pipeline_failure_shape [] (fun _ => none) none (fun _ => Except.error [])
    (by decide)
  exact ⟨by decide, h.1, h.2.1, h.2.2.1, h.2.2.2.1, h.2.2.2.2.1, h.2.2.2.2.2⟩

/-! ### C9: translator output validity -/

theorem splitOnChar_ne_nil (sep : Char) (l : PyStr) : PyStr.splitOnChar sep l ≠ [] := by
  cases l with
  | nil => simp [PyStr.splitOnChar]
  | cons c cs =>
    rw [PyStr.splitOnChar]
    by_cases h : c = sep
    · simp [h]
    · simp only [if_neg h]
      rcases hr : PyStr.splitOnChar sep cs with _ | ⟨p, ps⟩ <;> simp

theorem mem_of_mem_splitOnChar {sep : Char} :
    ∀ {l : PyStr} {p : PyStr} {c : Char},
      p ∈ PyStr.splitOnChar sep l → c ∈ p → c ∈ l := by
  intro l
  induction l with
  | nil =>
    intro p c hp hc
    simp [PyStr.splitOnChar] at hp
    subst hp
    simp at hc
  | cons x xs ih =>
    intro p c hp hc
    rw [PyStr.splitOnChar] at hp
    by_cases hx : x = sep
    · rw [if_pos hx] at hp
      rcases List.mem_cons.mp hp with rfl | hp
      · simp at hc
      · exact List.mem_cons_of_mem _ (ih hp hc)
    · rw [if_neg hx] at hp
      rcases hr : PyStr.splitOnChar sep xs with _ | ⟨q, qs⟩
      · exact absurd hr (splitOnChar_ne_nil sep xs)
      · rw [hr] at hp
        rcases List.mem_cons.mp hp with rfl | hp
        · rcases List.mem_cons.mp hc with rfl | hc
          · exact List.mem_cons_self _ _
          · have hq : q ∈ PyStr.splitOnChar sep xs := by
              rw [hr]; exact List.mem_cons_self _ _
            exact List.mem_cons_of_mem _ (ih hq hc)
        · have hq : p ∈ PyStr.splitOnChar sep xs := by
            rw [hr]; exact List.mem_cons_of_mem _ hp
          exact List.mem_cons_of_mem _ (ih hq hc)

theorem getD_mem_of_lt {l : List α} {i : Nat} {d : α} (h : i < l.length) :
    l.getD i d ∈ l := by
  rw [List.getD_eq_getElem?_getD, List.getElem?_eq_getElem h]
  simp only [Option.getD_some]
  exact List.getElem_mem h

theorem mem_joinSep {sep : PyStr} :
    ∀ {ps : List PyStr} {p : PyStr} {c : Char},
      p ∈ ps → c ∈ p → c ∈ PyStr.joinSep sep ps := by
  intro ps
  induction ps with
  | nil => intro p c hp; simp at hp
  | cons x xs ih =>
    intro p c hp hc
    cases xs with
    | nil =>
      rcases List.mem_cons.mp hp with rfl | hp
      · simpa [PyStr.joinSep] using hc
      · simp at hp
    | cons y ys =>
      show c ∈ x ++ sep ++ PyStr.joinSep sep (y :: ys)
      rcases List.mem_cons.mp hp with rfl | hp
      · exact List.mem_append_left _ (List.mem_append_left _ hc)
      · exact List.mem_append_right _ (ih hp hc)

theorem findValidLine_inv {rank : Nat} :
    ∀ {ls : List PyStr} {line : PyStr}, findValidLine rank ls = some line →
      7 ≤ (PyStr.splitOnChar '|' line).length ∧
      containsThai (PyStr.trim ((PyStr.splitOnChar '|' line).getD 2 [])) = true := by
  intro ls
  induction ls with
  | nil => intro line h; simp [findValidLine] at h
  | cons l ls ih =>
    intro line h
    simp only [findValidLine] at h
    split_ifs at h with h1 h2 h3 h4 h5
    all_goals
      first
        | exact ih h
        | (obtain rfl := Option.some_inj.mp h
           exact ⟨h2, h4.2⟩)
        | exact absurd h5.1 (by simp)

theorem findValidLine_hasThai {rank : Nat} {ls : List PyStr} {line : PyStr}
    (h : findValidLine rank ls = some line) : containsThai line = true := by
  obtain ⟨hlen, hthai⟩ := findValidLine_inv h
  rw [containsThai, List.any_eq_true] at hthai ⊢
  obtain ⟨c, hc, hcthai⟩ := hthai
  refine ⟨c, ?_, hcthai⟩
  exact mem_of_mem_splitOnChar (getD_mem_of_lt (by omega)) (mem_of_mem_trim hc)

theorem fallback_some_hasThai {response : PyStr} {rank : Nat} {line : PyStr}
    (h : fallback_format_extraction response rank = some line) :
    containsThai line = true := by
  rw [fallback_format_extraction] at h
  split_ifs at h with hguard
  · obtain rfl := Option.some_inj.mp h
    obtain ⟨htitle, hthai⟩ := hguard
    rcases hp : (PyStr.words response).filter containsThai with _ | ⟨w, ws⟩
    · exact absurd hp hthai
    · have hw : containsThai w = true := (List.mem_filter.mp (hp ▸ List.mem_cons_self w ws)).2
      rw [containsThai, List.any_eq_true] at hw
      obtain ⟨c, hcw, hcthai⟩ := hw
      have hwtake : w ∈ ((PyStr.words response).filter containsThai).take 10 := by
        rw [hp]
        simp [List.take]
      have hcjoin : c ∈ PyStr.joinSep [' ']
          (((PyStr.words response).filter containsThai).take 10) :=
        mem_joinSep hwtake hcw
      rw [hp] at hcjoin
      rw [containsThai, List.any_eq_true]
      exact ⟨c, List.mem_append_left _ (List.mem_append_right _ hcjoin), hcthai⟩

/-- C9 (amended): every line the translator emits contains at least one Thai
character; a line emitted via the validated path moreover has Thai text
inside the third `|`-delimited (summary) field; and the fallback
reconstruction emits nothing exactly when it finds no quoted title or no
Thai token.  (A fallback line keeps its Thai text in the third field only
when the extracted fragments are free of the `|` delimiter — see the
counterexample.) -/
theorem C9_translator_thai_presence (response : PyStr) (rank : Nat) :
    (∀ line, extract_thai_format response rank = some line → containsThai line = true) ∧
    (∀ line ls, findValidLine rank ls = some line →
      containsThai (PyStr.trim ((PyStr.splitOnChar '|' line).getD 2 [])) = true) ∧
    (fallback_format_extraction response rank = none ↔
      (extract_quoted response = [] ∨ (PyStr.words response).filter containsThai = [])) := by
  refine ⟨?_, ?_, ?_⟩
  · intro line h
    rw [extract_thai_format] at h
    rcases hv : findValidLine rank (PyStr.splitOnChar '\n' (PyStr.trim response)) with _ | l
    · rw [hv] at h
      exact fallback_some_hasThai h
    · rw [hv] at h
      obtain rfl := Option.some_inj.mp h
      exact findValidLine_hasThai hv
  · intro line ls h
    exact (findValidLine_inv h).2
  · rw [fallback_format_extraction]
    split_ifs with hguard
    · simp only [reduceCtorEq, false_iff]
      push_neg
      exact ⟨hguard.1, hguard.2⟩
    · push_neg at hguard
      constructor
      · intro _
        by_cases ht : extract_quoted response = []
        · exact Or.inl ht
        · exact Or.inr (hguard ht)
      · intro _
        rfl

/-- C9 as stated is false on the code: for the response `"a|b" กข` (no
validated line, quoted title containing the field delimiter, one Thai word)
the fallback emits a line whose third `|`-field — the summary field — has no
Thai character: the delimiter inside the reconstructed title shifts the
fields. -/
theorem C9_counterexample :
    extract_thai_format c9_response 1 = some c9_line ∧
    containsThai (PyStr.trim ((PyStr.splitOnChar '|' c9_line).getD 2 [])) = false := by
  exact ⟨by decide, by decide⟩

/-- Witness for C9: a well-formed response is emitted via the validated path
and the amended theorem certifies the Thai character it carries. -/
theorem C9_translator_thai_presence_witness :
    extract_thai_format c9w_response 1 = some c9w_response ∧
    containsThai c9w_response = true :=
  ⟨by decide, (C9_translator_thai_presence c9w_response 1).1 c9w_response (by decide)⟩

/-! ### C4/C5/C10: ranker output shape, fallback, and mutation -/

theorem length_filter_add_length_filter_not (p : α → Bool) (l : List α) :
    (l.filter p).length + (l.filter (not ∘ p)).length = l.length := by
  induction l with
  | nil => rfl
  | cons x xs ih =>
    by_cases h : p x <;> simp [List.filter_cons, h, Function.comp, ← ih] <;> omega

theorem candsOf_spec {arts : List AnalyzedArticle} {p : Nat × AnalyzedArticle}
    (h : p ∈ candsOf arts) :
    p.1 < arts.length ∧ arts.getD p.1 default = p.2 ∧ p.2 ∈ arts := by
  have h1 : p ∈ sortDesc (fun p => p.2.combined_score) arts.enum :=
    List.take_subset _ _ h
  have h2 : p ∈ arts.enum := mem_sortDesc.mp h1
  obtain ⟨i, a⟩ := p
  obtain ⟨hlt, heq⟩ := List.mem_enum h2
  refine ⟨hlt, ?_, ?_⟩
  · rw [List.getD_eq_getElem?_getD, List.getElem?_eq_getElem hlt]
    simp [heq]
  · rw [heq]
    exact List.getElem_mem hlt

theorem candsOf_length_le (arts : List AnalyzedArticle) :
    (candsOf arts).length ≤ arts.length := by
  have h := List.length_take 15 (sortDesc (fun p => p.2.combined_score) arts.enum)
  rw [candsOf]
  rw [h, length_sortDesc, List.enum_length]
  omega

theorem processLine_noop {candIdx : List Nat} {st : List AnalyzedArticle × List (Nat × Nat)}
    {line : PyStr} (h : lineAssigns candIdx.length line = false) :
    processLine candIdx st line = st := by
  rw [processLine]
  rcases hp : parseRankLine line with _ | ⟨k, reasoning⟩
  · rfl
  · rw [lineAssigns, hp] at h
    dsimp only at h ⊢
    rw [if_neg]
    intro ⟨h1, h2⟩
    rw [Bool.and_eq_false_iff] at h
    rcases h with h | h <;> simp at h <;> omega

theorem processLines_noop {candIdx : List Nat} :
    ∀ {lines : List PyStr} {st : List AnalyzedArticle × List (Nat × Nat)},
      (∀ line ∈ lines, lineAssigns candIdx.length line = false) →
      lines.foldl (processLine candIdx) st = st := by
  intro lines
  induction lines with
  | nil => intro st _; rfl
  | cons l ls ih =>
    intro st hall
    rw [List.foldl_cons, processLine_noop (hall l (List.mem_cons_self _ _))]
    exact ih fun line hline => hall line (List.mem_cons_of_mem _ hline)

/-- C5: when the ranking model call raises, or no response line both parses
as `Rank N: Article [i]` and addresses an in-bounds candidate, the returned
ranking is the candidate slice sorted by combined score descending and
truncated to the top 10. -/
theorem C5_rank_fallback (arts : List AnalyzedArticle) (response : Option PyStr)
    (hfresh : ∀ a ∈ arts, a.glm_rank = none)
    (hnoparse : ∀ s, response = some s →
      ∀ line ∈ PyStr.splitOnChar '\n' s, lineAssigns (candsOf arts).length line = false) :
    (rank_articles arts response).2 =
      ((sortDesc (fun p => p.2.combined_score) (candsOf arts)).map (fun p => p.2)).take 10 := by
  by_cases hempty : arts.isEmpty
  · have : arts = [] := List.isEmpty_iff.mp hempty
    subst this
    rfl
  · rcases response with _ | s
    · rw [rank_articles, if_neg (by simp [hempty])]
    · rw [rank_articles, if_neg (by simp [hempty])]
      rw [parse_ranking_response]
      have hlen : ((candsOf arts).map (fun p => p.1)).length = (candsOf arts).length :=
        List.length_map _ _
      have hnoop : (PyStr.splitOnChar '\n' s).foldl
          (processLine ((candsOf arts).map (fun p => p.1)))
          (arts, ([] : List (Nat × Nat))) = (arts, ([] : List (Nat × Nat))) :=
        processLines_noop (fun line hline => by
          rw [hlen]
          exact hnoparse s rfl line hline)
      rw [hnoop]
      have hpost : (candsOf arts).map (fun p => (p.1, arts.getD p.1 default)) = candsOf arts := by
        have h : ∀ p ∈ candsOf arts, (p.1, arts.getD p.1 default) = id p := by
          intro p hp
          obtain ⟨_, hget, _⟩ := candsOf_spec hp
          rw [hget]
          simp
        rw [List.map_congr_left h, List.map_id]
      rw [hpost]
      have hnone : ∀ p ∈ candsOf arts, p.2.glm_rank.isSome = false := by
        intro p hp
        obtain ⟨_, _, hmem⟩ := candsOf_spec hp
        rw [hfresh p.2 hmem]
        rfl
      rw [List.partition_eq_filter_filter]
      have hfil1 : (candsOf arts).filter (fun p => p.2.glm_rank.isSome) = [] :=
        List.filter_eq_nil_iff.mpr (fun p hp => by simp [hnone p hp])
      have hfil2 : (candsOf arts).filter (not ∘ fun p => p.2.glm_rank.isSome) = candsOf arts :=
        List.filter_eq_self.mpr (fun p hp => by simp [hnone p hp])
      rw [hfil1, hfil2]
      rfl

theorem parse_ranking_output_length (response : PyStr)
    (cands : List (Nat × AnalyzedArticle)) (store : List AnalyzedArticle) :
    (parse_ranking_response response cands store).2.length = cands.length := by
  rw [parse_ranking_response]
  dsimp only
  rw [List.partition_eq_filter_filter]
  rw [List.length_map, List.length_append, length_sortAsc, length_sortDesc,
      length_filter_add_length_filter_not, List.length_map]

theorem parse_ranking_output_pairwise (response : PyStr)
    (cands : List (Nat × AnalyzedArticle)) (store : List AnalyzedArticle) :
    (parse_ranking_response response cands store).2.Pairwise rankedBefore := by
  rw [parse_ranking_response]
  dsimp only
  rw [List.partition_eq_filter_filter]
  rw [List.pairwise_map]
  refine List.pairwise_append.mpr ⟨?_, ?_, ?_⟩
  · refine List.Pairwise.imp_of_mem ?_
      (pairwise_sortAsc (fun p : Nat × AnalyzedArticle => ((p.2.glm_rank.getD 0 : Nat) : Int)) _)
    intro p q hp hq hle
    have hps : p.2.glm_rank.isSome := by
      simpa using (List.mem_filter.mp (mem_sortAsc.mp hp)).2
    have hqs : q.2.glm_rank.isSome := by
      simpa using (List.mem_filter.mp (mem_sortAsc.mp hq)).2
    obtain ⟨r1, h1⟩ := Option.isSome_iff_exists.mp hps
    obtain ⟨r2, h2⟩ := Option.isSome_iff_exists.mp hqs
    rw [h1, h2] at hle
    simp only [Option.getD_some] at hle
    simp only [rankedBefore, h1, h2]
    exact_mod_cast hle
  · refine List.Pairwise.imp_of_mem ?_
      (pairwise_sortDesc (fun p : Nat × AnalyzedArticle => p.2.combined_score) _)
    intro p q hp hq hle
    have hpn : p.2.glm_rank = none := by
      have := (List.mem_filter.mp (mem_sortDesc.mp hp)).2
      simpa [Function.comp, Option.not_isSome_iff_eq_none] using this
    have hqn : q.2.glm_rank = none := by
      have := (List.mem_filter.mp (mem_sortDesc.mp hq)).2
      simpa [Function.comp, Option.not_isSome_iff_eq_none] using this
    simpa only [rankedBefore, hpn, hqn] using hle
  · intro p hp q hq
    have hps : p.2.glm_rank.isSome := by
      simpa using (List.mem_filter.mp (mem_sortAsc.mp hp)).2
    have hqn : q.2.glm_rank = none := by
      have := (List.mem_filter.mp (mem_sortDesc.mp hq)).2
      simpa [Function.comp, Option.not_isSome_iff_eq_none] using this
    obtain ⟨r1, h1⟩ := Option.isSome_iff_exists.mp hps
    simp [rankedBefore, h1, hqn]

/-- C4: for every input of (fresh, unannotated) analyzed articles and every
model response, `rank_articles` returns at most 10 articles and no more than
it was given, and its output is `Pairwise rankedBefore`: model-ranked
articles precede all fallback articles, the model-ranked group is ordered by
assigned rank, and the fallback group is ordered by combined score
descending. -/
theorem C4_rank_output_shape (arts : List AnalyzedArticle) (response : Option PyStr)
    (hfresh : ∀ a ∈ arts, a.glm_rank = none) :
    (rank_articles arts response).2.length ≤ 10 ∧
    (rank_articles arts response).2.length ≤ arts.length ∧
    (rank_articles arts response).2.Pairwise rankedBefore := by
  by_cases hempty : arts.isEmpty
  · obtain rfl := List.isEmpty_iff.mp hempty
    refine ⟨by simp [rank_articles], by simp [rank_articles], by simp [rank_articles]⟩
  rcases response with _ | s
  · rw [rank_articles, if_neg (by simp [hempty])]
    dsimp only
    refine ⟨by rw [List.length_take]; omega, ?_, ?_⟩
    · rw [List.length_take, List.length_map, length_sortDesc]
      have := candsOf_length_le arts
      omega
    · refine List.Pairwise.sublist (List.take_sublist _ _) ?_
      rw [List.pairwise_map]
      refine List.Pairwise.imp_of_mem ?_
        (pairwise_sortDesc (fun p : Nat × AnalyzedArticle => p.2.combined_score) _)
      intro p q hp hq hle
      have hpn : p.2.glm_rank = none :=
        hfresh p.2 (candsOf_spec (mem_sortDesc.mp hp)).2.2
      have hqn : q.2.glm_rank = none :=
        hfresh q.2 (candsOf_spec (mem_sortDesc.mp hq)).2.2
      simpa only [rankedBefore, hpn, hqn] using hle
  · rw [rank_articles, if_neg (by simp [hempty])]
    dsimp only
    refine ⟨by rw [List.length_take]; omega, ?_, ?_⟩
    · rw [List.length_take, parse_ranking_output_length]
      have := candsOf_length_le arts
      omega
    · exact List.Pairwise.sublist (List.take_sublist _ _)
        (parse_ranking_output_pairwise s (candsOf arts) arts)

/-- Witness for C4: two fresh articles and a response that ranks the
lower-scoring one first; the output obeys the bounds and ordering contract,
and evaluates to the model-ranked article followed by the fallback one. -/
theorem C4_rank_output_shape_witness :
    (rank_articles c4_arts (some c4_response)).2.length ≤ 10 ∧
    (rank_articles c4_arts (some c4_response)).2.length ≤ c4_arts.length ∧
    (rank_articles c4_arts (some c4_response)).2.Pairwise rankedBefore ∧
    (rank_articles c4_arts (some c4_response)).2 =
      [{ mkAnalyzed 5 "Retail sales rise" with
           glm_rank := some 1, glm_reasoning := some "macro news".toList },
       mkAnalyzed 7 "Fed cuts rates"] := by
  obtain ⟨h1, h2, h3⟩ := C4_rank_output_shape c4_arts (some c4_response) (by decide)
  exact ⟨h1, h2, h3, by decide⟩

/-- Witness for C5: four fresh articles and an empty model response — the
output equals the input sorted by combined score descending. -/
theorem C5_rank_fallback_witness :
    (rank_articles c5_arts (some [])).2 =
      ((sortDesc (fun p => p.2.combined_score) (candsOf c5_arts)).map (fun p => p.2)).take 10 ∧
    (rank_articles c5_arts (some [])).2 = sortDesc (fun a => a.combined_score) c5_arts ∧
    (rank_articles c5_arts (some [])).2 =
      [mkAnalyzed 9 "Major merger", mkAnalyzed 7 "AI partnership",
       mkAnalyzed 5 "Earnings beat", mkAnalyzed 3 "Minor update"] := by
  refine ⟨C5_rank_fallback c5_arts (some []) (by decide) ?_, by decide, by decide⟩
  intro s hs line hline
  obtain rfl := Option.some_inj.mp hs
  revert hline
  revert line
  decide

theorem lineAssigns_zero (line : PyStr) : lineAssigns 0 line = false := by
  rw [lineAssigns]
  rcases parseRankLine line with _ | ⟨k, r⟩
  · rfl
  · dsimp only
    rw [Bool.and_eq_false_iff]
    by_cases h : 0 ≤ k
    · right
      simpa using by omega
    · left
      simpa using h

theorem processLine_fst_length (candIdx : List Nat)
    (st : List AnalyzedArticle × List (Nat × Nat)) (line : PyStr) :
    (processLine candIdx st line).1.length = st.1.length := by
  rw [processLine]
  rcases parseRankLine line with _ | ⟨k, r⟩
  · rfl
  · dsimp only
    split_ifs
    · exact List.length_set _ _ _
    · rfl

theorem processLine_keeps (candIdx : List Nat)
    (st : List AnalyzedArticle × List (Nat × Nat)) (line : PyStr) (i : Nat)
    (hi : i < st.1.length)
    (h : ((st.1.getD i default).glm_rank.isSome ∧
          (st.1.getD i default).glm_reasoning.isSome)) :
    ((processLine candIdx st line).1.getD i default).glm_rank.isSome ∧
    ((processLine candIdx st line).1.getD i default).glm_reasoning.isSome := by
  rw [processLine]
  rcases parseRankLine line with _ | ⟨k, r⟩
  · exact h
  · dsimp only
    split_ifs with hc
    · by_cases he : candIdx.getD k.toNat 0 = i
      · rw [he]
        rw [List.getD_eq_getElem?_getD, List.getElem?_set_self (by omega), Option.getD_some]
        exact ⟨rfl, rfl⟩
      · rw [List.getD_eq_getElem?_getD, List.getElem?_set_ne he,
            ← List.getD_eq_getElem?_getD]
        exact h
    · exact h

theorem processLine_sets (candIdx : List Nat) (n : Nat)
    (hidx : ∀ j ∈ candIdx, j < n)
    (st : List AnalyzedArticle × List (Nat × Nat)) (line : PyStr)
    (hlen : st.1.length = n)
    (hassigns : lineAssigns candIdx.length line = true) :
    ∃ i < n, ((processLine candIdx st line).1.getD i default).glm_rank.isSome ∧
      ((processLine candIdx st line).1.getD i default).glm_reasoning.isSome := by
  rw [lineAssigns] at hassigns
  rw [processLine]
  rcases hp : parseRankLine line with _ | ⟨k, r⟩
  · rw [hp] at hassigns
    simp at hassigns
  · rw [hp] at hassigns
    dsimp only at hassigns ⊢
    rw [Bool.and_eq_true, decide_eq_true_eq, decide_eq_true_eq] at hassigns
    rw [if_pos hassigns]
    refine ⟨candIdx.getD k.toNat 0, ?_, ?_⟩
    · exact hidx _ (getD_mem_of_lt (by omega))
    · have hor : candIdx.getD k.toNat 0 < st.1.length := by
        rw [hlen]
        exact hidx _ (getD_mem_of_lt (by omega))
      rw [List.getD_eq_getElem?_getD, List.getElem?_set_self hor, Option.getD_some]
      exact ⟨rfl, rfl⟩

theorem processLines_keep_good (candIdx : List Nat) (n : Nat) :
    ∀ (lines : List PyStr) (st : List AnalyzedArticle × List (Nat × Nat)),
      st.1.length = n →
      (∃ i < n, ((st.1.getD i default).glm_rank.isSome ∧
        (st.1.getD i default).glm_reasoning.isSome)) →
      (lines.foldl (processLine candIdx) st).1.length = n ∧
      ∃ i < n, (((lines.foldl (processLine candIdx) st).1.getD i default).glm_rank.isSome ∧
        ((lines.foldl (processLine candIdx) st).1.getD i default).glm_reasoning.isSome) := by
  intro lines
  induction lines with
  | nil => intro st hlen hgood; exact ⟨hlen, hgood⟩
  | cons l ls ih =>
    intro st hlen hgood
    rw [List.foldl_cons]
    obtain ⟨i, hi, hg⟩ := hgood
    refine ih (processLine candIdx st l) (by rw [processLine_fst_length]; exact hlen) ?_
    exact ⟨i, hi, processLine_keeps candIdx st l i (by omega) hg⟩

theorem processLines_good (candIdx : List Nat) (n : Nat)
    (hidx : ∀ j ∈ candIdx, j < n) :
    ∀ (lines : List PyStr) (st : List AnalyzedArticle × List (Nat × Nat)),
      st.1.length = n →
      (∃ line ∈ lines, lineAssigns candIdx.length line = true) →
      (lines.foldl (processLine candIdx) st).1.length = n ∧
      ∃ i < n, (((lines.foldl (processLine candIdx) st).1.getD i default).glm_rank.isSome ∧
        ((lines.foldl (processLine candIdx) st).1.getD i default).glm_reasoning.isSome) := by
  intro lines
  induction lines with
  | nil => intro st _ h; simp at h
  | cons l ls ih =>
    intro st hlen hex
    rw [List.foldl_cons]
    by_cases ha : lineAssigns candIdx.length l = true
    · refine processLines_keep_good candIdx n ls (processLine candIdx st l)
        (by rw [processLine_fst_length]; exact hlen) ?_
      exact processLine_sets candIdx n hidx st l hlen ha
    · rw [processLine_noop (Bool.not_eq_true _ ▸ ha)]
      refine ih st hlen ?_
      obtain ⟨line, hmem, hl⟩ := hex
      rcases List.mem_cons.mp hmem with rfl | hmem
      · exact absurd hl ha
      · exact ⟨line, hmem, hl⟩

/-- C10: `rank_articles` mutates its input — whenever some response line
parses to an in-bounds candidate, the caller's article store after the call
(the first component of the state-passing embedding) differs from the input:
some article now carries `glm_rank` and `glm_reasoning` annotations, visible
through every reference to the shared article dictionaries. -/
theorem C10_rank_mutates_input (arts : List AnalyzedArticle) (s : PyStr)
    (hfresh : ∀ a ∈ arts, a.glm_rank = none)
    (hline : ∃ line ∈ PyStr.splitOnChar '\n' s,
      lineAssigns (candsOf arts).length line = true) :
    (rank_articles arts (some s)).1 ≠ arts ∧
    ∃ a ∈ (rank_articles arts (some s)).1,
      a.glm_rank.isSome ∧ a.glm_reasoning.isSome := by
  by_cases hempty : arts.isEmpty
  · obtain rfl := List.isEmpty_iff.mp hempty
    obtain ⟨line, _, hl⟩ := hline
    rw [show (candsOf ([] : List AnalyzedArticle)).length = 0 from rfl] at hl
    exact absurd hl (by rw [lineAssigns_zero]; simp)
  · have hrw : (rank_articles arts (some s)).1 =
        ((PyStr.splitOnChar '\n' s).foldl
          (processLine ((candsOf arts).map (fun p => p.1))) (arts, [])).1 := by
      rw [rank_articles, if_neg (by simp [hempty])]
      rfl
    have hidx : ∀ j ∈ (candsOf arts).map (fun p => p.1), j < arts.length := by
      intro j hj
      obtain ⟨p, hp, rfl⟩ := List.mem_map.mp hj
      exact (candsOf_spec hp).1
    have hlen : ((candsOf arts).map (fun p => p.1)).length = (candsOf arts).length :=
      List.length_map _ _
    obtain ⟨hflen, i, hi, hggr, hggs⟩ := processLines_good ((candsOf arts).map (fun p => p.1))
      arts.length hidx (PyStr.splitOnChar '\n' s) (arts, []) rfl
      (by
        obtain ⟨line, hmem, hl⟩ := hline
        exact ⟨line, hmem, by rw [hlen]; exact hl⟩)
    rw [hrw]
    constructor
    · intro hEq
      have hga : ((arts.getD i default).glm_rank.isSome : Bool) = true := by
        rw [← hEq]
        exact hggr
      have hmem : arts.getD i default ∈ arts := getD_mem_of_lt (by omega)
      rw [hfresh _ hmem] at hga
      simp at hga
    · exact ⟨_, getD_mem_of_lt (show i < _ by omega), hggr, hggs⟩

/-- Witness for C10: two fresh articles and a response whose first line
parses; the post-call store differs from the input and evaluates to the
input with `glm_rank`/`glm_reasoning` written into the top candidate. -/
theorem C10_rank_mutates_input_witness :
    (rank_articles c10_arts (some c10_response)).1 ≠ c10_arts ∧
    (∃ a ∈ (rank_articles c10_arts (some c10_response)).1,
      a.glm_rank.isSome ∧ a.glm_reasoning.isSome) ∧
    (rank_articles c10_arts (some c10_response)).1 =
      [mkAnalyzed 6 "Chip demand rises",
       { mkAnalyzed 8 "Bank merger talks" with
           glm_rank := some 1, glm_reasoning := some "sector-wide".toList }] := by
  obtain ⟨h1, h2⟩ := C10_rank_mutates_input c10_arts c10_response (by decide) (by decide)
  exact ⟨h1, h2, by decide⟩
